import Mathlib

/-!
Verification of the schema-driven marshalling layer of
`azurelinuxagent/protocol/common.py`: the `set_properties` (Inflate) and
`get_properties` (Deflate) recursive mappers over `DataContract` entities and
`DataContractList` typed lists.

The embedding models the dynamically-typed Python runtime values the mapper
actually inspects with `isinstance`: primitives, plain dicts (parsed JSON
objects with string keys), plain lists, `DataContract` instances (their
`__dict__` as an ordered field list), and `DataContractList` (a `list`
subclass that also stores the item factory `itemType`; the factory is a
zero-argument entity constructor, represented here by the blank instance it
returns).  Exceptions raised by `validata_param` (`ProtocolError`, the spec's
`ContractError`) are modelled by a Boolean error flag; since `set_properties`
mutates its target in place, it is embedded as a state-threading function
returning the state of the target at the moment the call returns or the
exception propagates.
-/

namespace AzureProtocol

/-- Primitive scalar leaves of the wire format: strings, numbers, booleans,
and Python `None` (the unset sentinel). -/
inductive Prim where
  | null
  | str (s : String)
  | int (n : Int)
  | bool (b : Bool)
deriving DecidableEq, Repr

mutual
/-- A Python runtime value as inspected by the mapper's `isinstance` checks. -/
inductive PyVal where
  | prim (p : Prim)
  | dict (d : PDict)
  | list (l : PList)
  | dc (fields : PDict)
  | dclist (template : PyVal) (items : PList)

/-- An ordered string-keyed association structure: a Python `dict`, also used
for an object's `__dict__` (Python dict keys are unique and insertion-ordered,
which `vars(obj).items()` iteration relies on). -/
inductive PDict where
  | nil
  | cons (name : String) (v : PyVal) (rest : PDict)

/-- An ordered sequence of Python values: a plain `list`, also the element
storage of a `DataContractList`. -/
inductive PList where
  | nil
  | cons (v : PyVal) (rest : PList)
end

deriving instance DecidableEq for PyVal
deriving instance DecidableEq for PDict
deriving instance DecidableEq for PList

/-- Python `data[name]` on a dict (first occurrence; Python keys are unique). -/
def pdictLookup : PDict → String → Option PyVal
  | PDict.nil, _ => none
  | PDict.cons n v rest, name => if n = name then some v else pdictLookup rest name

/-- Python `list.append`: add one element at the end. -/
def psnoc : PList → PyVal → PList
  | PList.nil, x => PList.cons x PList.nil
  | PList.cons v rest, x => PList.cons v (psnoc rest x)

def pappend : PList → PList → PList
  | PList.nil, ys => ys
  | PList.cons x xs, ys => PList.cons x (pappend xs ys)

def plen : PList → Nat
  | PList.nil => 0
  | PList.cons _ rest => plen rest + 1

/-- Does the dict bind this key? -/
def hasName : PDict → String → Bool
  | PDict.nil, _ => false
  | PDict.cons n _ rest, name => n = name || hasName rest name

/-- The keys of a dict (field names of an object), in order. -/
def fieldNames : PDict → List String
  | PDict.nil => []
  | PDict.cons n _ rest => n :: fieldNames rest

/-- Python `isinstance(v, list)`: true for plain lists and for
`DataContractList` (a `list` subclass); yields the element sequence. -/
def asSeq : PyVal → Option PList
  | PyVal.list l => some l
  | PyVal.dclist _ items => some items
  | _ => none

/-- Python `isinstance(v, DataContract)`. -/
def isDC : PyVal → Bool
  | PyVal.dc _ => true
  | _ => false

/-- Python `isinstance(v, dict)`. -/
def isDict : PyVal → Bool
  | PyVal.dict _ => true
  | _ => false

/-- Python `isinstance(v, DataContractList)`. -/
def isDCList : PyVal → Bool
  | PyVal.dclist _ _ => true
  | _ => false

theorem pdictLookup_sizeOf : ∀ (d : PDict) (name : String) (v : PyVal),
    pdictLookup d name = some v → sizeOf v < sizeOf d
  | PDict.nil, _, _, h => by simp [pdictLookup] at h
  | PDict.cons n _ rest, name, v, h => by
    simp only [pdictLookup] at h
    by_cases hn : n = name
    · simp [hn] at h
      subst h
      simp
      omega
    · simp [hn] at h
      have := pdictLookup_sizeOf rest name v h
      simp
      omega

theorem asSeq_sizeOf {v : PyVal} {l : PList} (h : asSeq v = some l) :
    sizeOf l < sizeOf v := by
  cases v with
  | prim p => simp [asSeq] at h
  | dict d => simp [asSeq] at h
  | list l2 => simp [asSeq] at h; subst h; simp
  | dc f => simp [asSeq] at h
  | dclist t items => simp [asSeq] at h; subst h; simp

mutual
/-- Embedding of `set_properties(obj, data)` (Inflate).  Returns the state of
`obj` when the call finishes, paired with `true` when a `ProtocolError`
propagates out of the call (the state is then the partially mutated target).
The two `validata_param` calls require `obj` to be a `DataContract` instance
and `data` a `dict`. -/
def set_properties : PyVal → PyVal → PyVal × Bool
  | PyVal.dc fields, PyVal.dict d =>
    let r := setFields fields d
    (PyVal.dc r.1, r.2)
  | obj, _ => (obj, true)
termination_by obj data => (sizeOf data, sizeOf obj)
decreasing_by
  all_goals simp_wf
  all_goals (apply Prod.Lex.left
             simp
             first
             | done
             | omega)

/-- The `for name, val in props.items()` loop of `set_properties`, iterating
the target's fields in order against the incoming dict `d`. -/
def setFields : PDict → PDict → PDict × Bool
  | PDict.nil, _ => (PDict.nil, false)
  | PDict.cons name val rest, d =>
    match h : pdictLookup d name with
    | none =>
      let r := setFields rest d
      (PDict.cons name val r.1, r.2)
    | some newVal =>
      match newVal, h with
      | PyVal.dict nd, hd =>
        let r := set_properties val (PyVal.dict nd)
        if r.2 then (PDict.cons name r.1 rest, true)
        else
          let r2 := setFields rest d
          (PDict.cons name r.1 r2.1, r2.2)
      | newVal, h =>
        match hs : asSeq newVal, h with
        | some elems, hq =>
          match val with
          | PyVal.dclist t items =>
            let r := inflateList t items elems
            if r.2 then (PDict.cons name (PyVal.dclist t r.1) rest, true)
            else
              let r2 := setFields rest d
              (PDict.cons name (PyVal.dclist t r.1) r2.1, r2.2)
          | _ => (PDict.cons name val rest, true)
        | none, _ =>
          let r := setFields rest d
          (PDict.cons name newVal r.1, r.2)
termination_by f d => (sizeOf d, sizeOf f)
decreasing_by
  all_goals simp_wf
  all_goals first
  | (apply Prod.Lex.right
     simp
     first
     | done
     | omega)
  | (apply Prod.Lex.left
     have h1 := pdictLookup_sizeOf _ _ _ hd
     simp at h1 ⊢
     omega)
  | (apply Prod.Lex.left
     have h1 := pdictLookup_sizeOf _ _ _ hq
     have h2 := asSeq_sizeOf hs
     simp at h1 h2 ⊢
     omega)
  | (apply Prod.Lex.left
     simp
     first
     | done
     | omega)

/-- The `for dataItem in newVal` loop of `set_properties`: for each element,
construct a fresh item with the list's `itemType` factory (the template),
recursively inflate it, and append it; on error the current item is dropped
but previously appended items remain. -/
def inflateList : PyVal → PList → PList → PList × Bool
  | _, items, PList.nil => (items, false)
  | t, items, PList.cons e es =>
    let r := set_properties t e
    if r.2 then (items, true)
    else inflateList t (psnoc items r.1) es
termination_by t items elems => (sizeOf elems, sizeOf t)
decreasing_by
  all_goals simp_wf
  all_goals (apply Prod.Lex.left
             try simp
             first
             | done
             | omega)
end


mutual
/-- Embedding of `get_properties(obj)` (Deflate).  Requires `obj` to be a
`DataContract` instance (else `ProtocolError`, modelled by `none`) and
returns the freshly built `dict`.  A raised error anywhere in the recursion
propagates out, modelled by `none`. -/
def get_properties : PyVal → Option PyVal
  | PyVal.dc fields =>
    match getFields fields with
    | some d => some (PyVal.dict d)
    | none => none
  | _ => none

/-- The `for name, val in props.items()` loop of `get_properties`: a
`DataContract` field is recursively deflated, a `DataContractList` field is
deflated item by item into a plain list, any other value is stored verbatim. -/
def getFields : PDict → Option PDict
  | PDict.nil => some PDict.nil
  | PDict.cons name val rest =>
    match val with
    | PyVal.dc f =>
      match getFields f, getFields rest with
      | some dv, some r => some (PDict.cons name (PyVal.dict dv) r)
      | _, _ => none
    | PyVal.dclist _ items =>
      match deflateItems items, getFields rest with
      | some l, some r => some (PDict.cons name (PyVal.list l) r)
      | _, _ => none
    | v =>
      match getFields rest with
      | some r => some (PDict.cons name v r)
      | none => none

/-- The `for item in val` loop of `get_properties` over a `DataContractList`:
each item is deflated with `get_properties` (so each item must itself be a
`DataContract` instance). -/
def deflateItems : PList → Option PList
  | PList.nil => some PList.nil
  | PList.cons v rest =>
    match get_properties v, deflateItems rest with
    | some dv, some r => some (PList.cons dv r)
    | _, _ => none
end

mutual
/-- The blank instance produced by the zero-argument constructor of an
entity's class: scalar fields reset to `None`, nested entities blanked
recursively, typed lists emptied (keeping their `itemType` factory). -/
def blankObj : PyVal → PyVal
  | PyVal.dc fields => PyVal.dc (blankFields fields)
  | v => v

def blankFields : PDict → PDict
  | PDict.nil => PDict.nil
  | PDict.cons name val rest => PDict.cons name (blankVal val) (blankFields rest)

def blankVal : PyVal → PyVal
  | PyVal.dc f => PyVal.dc (blankFields f)
  | PyVal.dclist t _ => PyVal.dclist t PList.nil
  | _ => PyVal.prim Prim.null
end

mutual
/-- Conformance of a runtime value to the Schema Model shape of its own
class: the value is a `DataContract` instance with distinct field names,
scalar fields hold primitives, nested-entity fields hold conforming
entities, and typed-list fields hold only conforming items each of whose
blank shape is exactly the list's `itemType` template. -/
def wfObj : PyVal → Bool
  | PyVal.dc fields => namesNodup fields && wfFields fields
  | _ => false

def namesNodup : PDict → Bool
  | PDict.nil => true
  | PDict.cons n _ rest => !(hasName rest n) && namesNodup rest

def wfFields : PDict → Bool
  | PDict.nil => true
  | PDict.cons _ val rest => wfVal val && wfFields rest

def wfVal : PyVal → Bool
  | PyVal.prim _ => true
  | PyVal.dc f => namesNodup f && wfFields f
  | PyVal.dclist t items => wfItems t items
  | _ => false

def wfItems : PyVal → PList → Bool
  | _, PList.nil => true
  | t, PList.cons v rest =>
    (match v with
     | PyVal.dc f => namesNodup f && wfFields f
     | _ => false)
    && decide (blankObj v = t) && wfItems t rest
end

mutual
/-- No scalar field anywhere in the entity is still the unset sentinel
`None`; nested entities and typed-list items are checked recursively. -/
def noneFree : PyVal → Bool
  | PyVal.prim Prim.null => false
  | PyVal.prim _ => true
  | PyVal.dict _ => true
  | PyVal.list _ => true
  | PyVal.dc f => noneFreeFields f
  | PyVal.dclist _ items => noneFreeItems items

def noneFreeFields : PDict → Bool
  | PDict.nil => true
  | PDict.cons _ val rest => noneFree val && noneFreeFields rest

def noneFreeItems : PList → Bool
  | PList.nil => true
  | PList.cons v rest => noneFree v && noneFreeItems rest
end

/-- The fields of a `DataContract` instance (its `__dict__`). -/
def objFields : PyVal → PDict
  | PyVal.dc f => f
  | _ => PDict.nil


/-- One inflated item per incoming sequence element, in order: each is the
result of populating a fresh factory-made instance from its element. -/
def inflateAll (t : PyVal) : PList → PList
  | PList.nil => PList.nil
  | PList.cons e es => PList.cons (set_properties t e).1 (inflateAll t es)

/-- Every element of the sequence inflates into a fresh item of the list's
item type without raising. -/
def allInflateOk (t : PyVal) : PList → Bool
  | PList.nil => true
  | PList.cons e es => !(set_properties t e).2 && allInflateOk t es


/-- No key of the mapping matches any declared field name of the target. -/
def noKeyMatches : PDict → PDict → Bool
  | PDict.nil, _ => true
  | PDict.cons n _ rest, d => (pdictLookup d n).isNone && noKeyMatches rest d


theorem pappend_nil : ∀ l : PList, pappend l PList.nil = l
  | PList.nil => rfl
  | PList.cons x xs => by rw [pappend, pappend_nil xs]

theorem pappend_psnoc : ∀ (acc : PList) (x : PyVal) (l : PList),
    pappend (psnoc acc x) l = pappend acc (PList.cons x l)
  | PList.nil, x, l => rfl
  | PList.cons v rest, x, l => by rw [psnoc, pappend, pappend_psnoc rest x l, pappend]

theorem plen_pappend : ∀ a b : PList, plen (pappend a b) = plen a + plen b
  | PList.nil, b => by simp [pappend, plen]
  | PList.cons x xs, b => by rw [pappend, plen, plen_pappend xs b, plen]; omega

theorem plen_inflateAll : ∀ (t : PyVal) (l : PList), plen (inflateAll t l) = plen l
  | _, PList.nil => rfl
  | t, PList.cons e es => by rw [inflateAll, plen, plen_inflateAll t es, plen]

theorem inflateList_ok : ∀ (elems : PList) (t : PyVal) (acc : PList),
    allInflateOk t elems = true →
    inflateList t acc elems = (pappend acc (inflateAll t elems), false)
  | PList.nil, t, acc, _ => by simp [inflateList, inflateAll, pappend_nil]
  | PList.cons e es, t, acc, h => by
    rw [allInflateOk, Bool.and_eq_true, Bool.not_eq_true'] at h
    rw [inflateList]
    simp only [h.1, if_neg]
    rw [inflateList_ok es t (psnoc acc (set_properties t e).1) h.2]
    rw [inflateAll, pappend_psnoc]
    simp

theorem inflateList_elem_err (t : PyVal) (acc : PList) (e : PyVal) (es : PList)
    (h : (set_properties t e).2 = true) :
    inflateList t acc (PList.cons e es) = (acc, true) := by
  rw [inflateList]
  simp [h]

theorem set_properties_nonDict (t e : PyVal) (h : isDict e = false) :
    (set_properties t e).2 = true := by
  cases t <;> cases e <;> simp_all [isDict, set_properties]

theorem set_properties_nonDC (obj data : PyVal) (h : isDC obj = false) :
    set_properties obj data = (obj, true) := by
  cases obj <;> cases data <;> simp_all [isDC, set_properties]

theorem set_properties_dc_dict (f d : PDict) :
    set_properties (PyVal.dc f) (PyVal.dict d) =
      (PyVal.dc (setFields f d).1, (setFields f d).2) := by
  rw [set_properties]

/-- A field whose key is bound to a scalar (or to a `DataContract` value:
anything that is neither a `dict` nor a `list`) is simply overwritten with
that value by `setattr`, whatever the field held before. -/
theorem setFields_scalar (name : String) (val : PyVal) (rest d : PDict)
    (newVal : PyVal) (hl : pdictLookup d name = some newVal)
    (hnd : isDict newVal = false) (hns : asSeq newVal = none) :
    setFields (PDict.cons name val rest) d =
      (PDict.cons name newVal (setFields rest d).1, (setFields rest d).2) := by
  cases newVal with
  | dict nd => simp [isDict] at hnd
  | list l => simp [asSeq] at hns
  | dclist t i => simp [asSeq] at hns
  | prim p =>
    rw [setFields]
    repeat' split
    all_goals simp_all [asSeq]
  | dc g =>
    rw [setFields]
    repeat' split
    all_goals simp_all [asSeq]

/-- A field whose key is bound to a sequence must currently hold a
`DataContractList`; otherwise `validata_param("list", ...)` raises and the
loop stops with the field untouched. -/
theorem setFields_seq_mismatch (name : String) (val : PyVal) (rest d : PDict)
    (elems : PList) (hl : pdictLookup d name = some (PyVal.list elems))
    (hv : isDCList val = false) :
    setFields (PDict.cons name val rest) d = (PDict.cons name val rest, true) := by
  rw [setFields]
  repeat' split
  all_goals subst_vars
  all_goals simp_all [isDCList, asSeq]

/-- A typed-list field whose key is bound to a sequence, all of whose
elements inflate cleanly, ends up with the new items appended after the
existing ones, and the loop continues with the remaining fields. -/
theorem setFields_seq_ok (name : String) (t : PyVal) (items : PList)
    (rest d : PDict) (elems : PList)
    (hl : pdictLookup d name = some (PyVal.list elems))
    (hok : allInflateOk t elems = true) :
    setFields (PDict.cons name (PyVal.dclist t items) rest) d =
      (PDict.cons name (PyVal.dclist t (pappend items (inflateAll t elems)))
        (setFields rest d).1, (setFields rest d).2) := by
  have hil := inflateList_ok elems t items hok
  rw [setFields]
  repeat' split
  all_goals subst_vars
  all_goals simp_all [asSeq, apply_ite Prod.fst, apply_ite Prod.snd]

/-- A field whose key is bound to a dict recurses into the field's current
value; on success the loop continues, on failure it stops with the partially
mutated nested value stored back in the field. -/
theorem setFields_dict (name : String) (val : PyVal) (rest d : PDict)
    (nd : PDict) (hl : pdictLookup d name = some (PyVal.dict nd)) :
    setFields (PDict.cons name val rest) d =
      (if (set_properties val (PyVal.dict nd)).2 then
        (PDict.cons name (set_properties val (PyVal.dict nd)).1 rest, true)
      else
        (PDict.cons name (set_properties val (PyVal.dict nd)).1 (setFields rest d).1,
          (setFields rest d).2)) := by
  rw [setFields]
  repeat' split
  all_goals subst_vars
  all_goals simp_all [asSeq, apply_ite Prod.fst, apply_ite Prod.snd]

/-- A field whose key is missing from the mapping is skipped (`KeyError`
branch): it keeps its previous value. -/
theorem setFields_missing (name : String) (val : PyVal) (rest d : PDict)
    (hl : pdictLookup d name = none) :
    setFields (PDict.cons name val rest) d =
      (PDict.cons name val (setFields rest d).1, (setFields rest d).2) := by
  rw [setFields]
  repeat' split
  all_goals subst_vars
  all_goals simp_all

theorem setFields_names : ∀ (f d : PDict), fieldNames (setFields f d).1 = fieldNames f
  | PDict.nil, d => by simp [setFields, fieldNames]
  | PDict.cons name val rest, d => by
    have ih := setFields_names rest d
    rw [setFields]
    repeat' split
    all_goals subst_vars
    all_goals simp_all [fieldNames, apply_ite Prod.fst, apply_ite fieldNames]

theorem setFields_lookup_off : ∀ (f d : PDict) (name : String),
    pdictLookup d name = none →
    pdictLookup (setFields f d).1 name = pdictLookup f name
  | PDict.nil, d, name, h => by simp [setFields]
  | PDict.cons n val rest, d, name, h => by
    have ih := setFields_lookup_off rest d name h
    by_cases hn : n = name
    · subst hn
      rw [setFields_missing n val rest d h]
      simp [pdictLookup]
    · rw [setFields]
      repeat' split
      all_goals simp_all [pdictLookup, hn, apply_ite Prod.fst, apply_ite fun g => pdictLookup g name]

theorem setFields_noMatch : ∀ (f d : PDict), noKeyMatches f d = true →
    setFields f d = (f, false)
  | PDict.nil, d, _ => by simp [setFields]
  | PDict.cons n val rest, d, h => by
    rw [noKeyMatches, Bool.and_eq_true, Option.isNone_iff_eq_none] at h
    rw [setFields_missing n val rest d h.1, setFields_noMatch rest d h.2]

/-- A typed-list field whose key is bound to a sequence that the item loop
processes without error ends up holding the loop's result, and the field
loop continues with the remaining fields. -/
theorem setFields_seq_res (name : String) (t : PyVal) (items0 : PList)
    (rest d : PDict) (elems newItems : PList)
    (hl : pdictLookup d name = some (PyVal.list elems))
    (hres : inflateList t items0 elems = (newItems, false)) :
    setFields (PDict.cons name (PyVal.dclist t items0) rest) d =
      (PDict.cons name (PyVal.dclist t newItems) (setFields rest d).1,
        (setFields rest d).2) := by
  rw [setFields]
  repeat' split
  all_goals simp_all [asSeq, apply_ite Prod.fst, apply_ite Prod.snd]

/-- Key-agreement bookkeeping for the round-trip proof: if a dict agrees
with `cons name X dr` on all names declared by `cons name val rest` (with
`name` not recurring in `rest`), then it binds `name` to `X` and agrees with
`dr` on all names of `rest`. -/
theorem keyAgreement (name : String) (val : PyVal) (rest dr : PDict)
    (hnm : hasName rest name = false) (X : PyVal) (d' : PDict)
    (hag : ∀ nm, hasName (PDict.cons name val rest) nm = true →
      pdictLookup d' nm = pdictLookup (PDict.cons name X dr) nm) :
    pdictLookup d' name = some X ∧
      ∀ nm, hasName rest nm = true → pdictLookup d' nm = pdictLookup dr nm := by
  constructor
  · have h1 := hag name (by simp [hasName])
    rw [h1]
    simp [pdictLookup]
  · intro nm hm
    have hne : ¬ name = nm := by
      intro he
      subst he
      rw [hm] at hnm
      exact Bool.noConfusion hnm
    have h2 := hag nm (by simp [hasName, hm])
    rw [h2]
    simp [pdictLookup, hne]

mutual
/-- Round-trip at the field-list level: well-formed fields deflate
successfully, and inflating the blank field list from any dict that agrees
with the deflated dict on the declared names reproduces the fields exactly,
with no error. -/
theorem roundtrip_fields : ∀ (f : PDict), namesNodup f = true → wfFields f = true →
    ∃ d, getFields f = some d ∧
      ∀ d' : PDict, (∀ nm, hasName f nm = true → pdictLookup d' nm = pdictLookup d nm) →
        setFields (blankFields f) d' = (f, false)
  | PDict.nil, _, _ =>
    ⟨PDict.nil, by rw [getFields], fun d' _ => by rw [blankFields, setFields]⟩
  | PDict.cons name (PyVal.prim p) rest, hnd, hwf => by
    rw [namesNodup, Bool.and_eq_true, Bool.not_eq_true'] at hnd
    obtain ⟨hnm, hndr⟩ := hnd
    rw [wfFields, Bool.and_eq_true] at hwf
    obtain ⟨hval, hwfr⟩ := hwf
    obtain ⟨dr, hdr, hir⟩ := roundtrip_fields rest hndr hwfr
    refine ⟨PDict.cons name (PyVal.prim p) dr, by simp [getFields, hdr], ?_⟩
    intro d' hag
    obtain ⟨hname, hagr⟩ := keyAgreement name (PyVal.prim p) rest dr hnm (PyVal.prim p) d' hag
    have hrest : setFields (blankFields rest) d' = (rest, false) := hir d' hagr
    simp only [blankFields, blankVal]
    rw [setFields_scalar name (PyVal.prim Prim.null) (blankFields rest) d'
      (PyVal.prim p) hname rfl rfl]
    rw [hrest]
  | PDict.cons name (PyVal.dc f2) rest, hnd, hwf => by
    rw [namesNodup, Bool.and_eq_true, Bool.not_eq_true'] at hnd
    obtain ⟨hnm, hndr⟩ := hnd
    rw [wfFields, Bool.and_eq_true] at hwf
    obtain ⟨hval, hwfr⟩ := hwf
    obtain ⟨dr, hdr, hir⟩ := roundtrip_fields rest hndr hwfr
    rw [wfVal, Bool.and_eq_true] at hval
    obtain ⟨hnd2, hwf2⟩ := hval
    obtain ⟨d2, hd2, hi2⟩ := roundtrip_fields f2 hnd2 hwf2
    refine ⟨PDict.cons name (PyVal.dict d2) dr, by simp [getFields, hd2, hdr], ?_⟩
    intro d' hag
    obtain ⟨hname, hagr⟩ :=
      keyAgreement name (PyVal.dc f2) rest dr hnm (PyVal.dict d2) d' hag
    have hrest : setFields (blankFields rest) d' = (rest, false) := hir d' hagr
    have hset : set_properties (PyVal.dc (blankFields f2)) (PyVal.dict d2)
        = (PyVal.dc f2, false) := by
      rw [set_properties_dc_dict, hi2 d2 (fun _ _ => rfl)]
    simp only [blankFields, blankVal]
    rw [setFields_dict name (PyVal.dc (blankFields f2)) (blankFields rest) d' d2 hname]
    rw [hset]
    simp [hrest]
  | PDict.cons name (PyVal.dclist t items) rest, hnd, hwf => by
    rw [namesNodup, Bool.and_eq_true, Bool.not_eq_true'] at hnd
    obtain ⟨hnm, hndr⟩ := hnd
    rw [wfFields, Bool.and_eq_true] at hwf
    obtain ⟨hval, hwfr⟩ := hwf
    obtain ⟨dr, hdr, hir⟩ := roundtrip_fields rest hndr hwfr
    rw [wfVal] at hval
    obtain ⟨l, hl, hinfl⟩ := roundtrip_items t items hval
    refine ⟨PDict.cons name (PyVal.list l) dr, by simp [getFields, hl, hdr], ?_⟩
    intro d' hag
    obtain ⟨hname, hagr⟩ :=
      keyAgreement name (PyVal.dclist t items) rest dr hnm (PyVal.list l) d' hag
    have hrest : setFields (blankFields rest) d' = (rest, false) := hir d' hagr
    have hil : inflateList t PList.nil l = (items, false) := by
      have h0 := hinfl PList.nil
      rwa [pappend] at h0
    simp only [blankFields, blankVal]
    rw [setFields_seq_res name t PList.nil (blankFields rest) d' l items hname hil]
    rw [hrest]
  | PDict.cons name (PyVal.dict nd) rest, hnd, hwf => by
    rw [wfFields, Bool.and_eq_true] at hwf
    simp [wfVal] at hwf
  | PDict.cons name (PyVal.list l2) rest, hnd, hwf => by
    rw [wfFields, Bool.and_eq_true] at hwf
    simp [wfVal] at hwf
termination_by f _ _ => sizeOf f
decreasing_by
  all_goals simp_wf
  all_goals try simp
  all_goals omega

/-- Round-trip at the typed-list level: well-formed items (each an entity
whose blank shape is the list's item template) deflate successfully, and the
item loop re-creates exactly those items, appended after any existing
accumulator contents, with no error. -/
theorem roundtrip_items : ∀ (t : PyVal) (items : PList), wfItems t items = true →
    ∃ l, deflateItems items = some l ∧
      ∀ acc, inflateList t acc l = (pappend acc items, false)
  | _, PList.nil, _ =>
    ⟨PList.nil, by rw [deflateItems], fun acc => by rw [inflateList, pappend_nil]⟩
  | t, PList.cons (PyVal.dc fv) vs, hwf => by
    rw [wfItems] at hwf
    simp only [Bool.and_eq_true, decide_eq_true_eq] at hwf
    obtain ⟨⟨⟨hndv, hwfv⟩, hbt⟩, hrest⟩ := hwf
    obtain ⟨dv, hdv, hiv⟩ := roundtrip_fields fv hndv hwfv
    obtain ⟨lr, hlr, hirs⟩ := roundtrip_items t vs hrest
    refine ⟨PList.cons (PyVal.dict dv) lr, ?_, ?_⟩
    · rw [deflateItems]
      simp [get_properties, hdv, hlr]
    · intro acc
      have ht : t = PyVal.dc (blankFields fv) := by
        rw [← hbt]
        simp [blankObj]
      have hset : set_properties t (PyVal.dict dv) = (PyVal.dc fv, false) := by
        rw [ht, set_properties_dc_dict, hiv dv (fun _ _ => rfl)]
      rw [inflateList]
      simp only [hset]
      rw [if_neg (by simp)]
      rw [hirs (psnoc acc (PyVal.dc fv))]
      rw [pappend_psnoc]
  | t, PList.cons (PyVal.prim p) vs, hwf => by simp [wfItems] at hwf
  | t, PList.cons (PyVal.dict nd) vs, hwf => by simp [wfItems] at hwf
  | t, PList.cons (PyVal.list l2) vs, hwf => by simp [wfItems] at hwf
  | t, PList.cons (PyVal.dclist t2 i2) vs, hwf => by simp [wfItems] at hwf
termination_by t items _ => sizeOf items
decreasing_by
  all_goals simp_wf
  all_goals try simp
  all_goals omega
end

/-- Claim C1, counterexample: a target whose `properties` field holds a
nested entity, inflated from a mapping binding `properties` to the scalar
`"x"`, does NOT raise: the scalar is assigned over the nested entity and the
call returns without error, contradicting the claim. -/
theorem c1_counterexample :
    set_properties
      (PyVal.dc (PDict.cons "properties"
        (PyVal.dc (PDict.cons "version" (PyVal.prim Prim.null) PDict.nil)) PDict.nil))
      (PyVal.dict (PDict.cons "properties" (PyVal.prim (Prim.str "x")) PDict.nil))
    = (PyVal.dc (PDict.cons "properties" (PyVal.prim (Prim.str "x")) PDict.nil), false) := by
  simp [set_properties, setFields, inflateList, pdictLookup, asSeq]

/-- Claim C1, amended: for every entity target whose declared field F
currently holds a nested-entity instance, Inflate from a mapping binding F's
name to a scalar does not raise at that field: the scalar is assigned to F,
replacing the nested-entity instance, and the field loop continues with the
remaining fields. -/
theorem c1_scalar_assigned (name : String) (g rest d : PDict) (p : Prim)
    (hl : pdictLookup d name = some (PyVal.prim p)) :
    setFields (PDict.cons name (PyVal.dc g) rest) d =
      (PDict.cons name (PyVal.prim p) (setFields rest d).1, (setFields rest d).2) :=
  setFields_scalar name (PyVal.dc g) rest d (PyVal.prim p) hl rfl rfl

theorem c1_scalar_assigned_witness :
    setFields
      (PDict.cons "properties" (PyVal.dc (PDict.cons "version" (PyVal.prim Prim.null) PDict.nil)) PDict.nil)
      (PDict.cons "properties" (PyVal.prim (Prim.str "x")) PDict.nil) =
    (PDict.cons "properties" (PyVal.prim (Prim.str "x"))
      (setFields PDict.nil (PDict.cons "properties" (PyVal.prim (Prim.str "x")) PDict.nil)).1,
     (setFields PDict.nil (PDict.cons "properties" (PyVal.prim (Prim.str "x")) PDict.nil)).2) :=
  c1_scalar_assigned "properties" (PDict.cons "version" (PyVal.prim Prim.null) PDict.nil)
    PDict.nil (PDict.cons "properties" (PyVal.prim (Prim.str "x")) PDict.nil)
    (Prim.str "x") (by simp [pdictLookup])

/-- Claim C2: for every entity instance E (of any Schema Model type) in
which no scalar field is unset, inflating a freshly constructed blank
instance of E's type from Deflate(E) yields an instance field-by-field equal
to E, including nested entities and typed-list contents, with no error. -/
theorem c2_roundtrip (E : PyVal) (hwf : wfObj E = true) (hnf : noneFree E = true) :
    ∃ d, get_properties E = some d ∧ set_properties (blankObj E) d = (E, false) := by
  cases E with
  | dc f =>
    rw [wfObj, Bool.and_eq_true] at hwf
    obtain ⟨hnd, hwff⟩ := hwf
    obtain ⟨d0, hd0, hinf⟩ := roundtrip_fields f hnd hwff
    refine ⟨PyVal.dict d0, ?_, ?_⟩
    · rw [get_properties, hd0]
    · simp only [blankObj]
      rw [set_properties_dc_dict, hinf d0 (fun _ _ => rfl)]
  | prim p => simp [wfObj] at hwf
  | dict nd => simp [wfObj] at hwf
  | list l => simp [wfObj] at hwf
  | dclist t i => simp [wfObj] at hwf

theorem c2_roundtrip_witness :
    ∃ d, get_properties (PyVal.dc (PDict.cons "name" (PyVal.prim (Prim.str "c1"))
        (PDict.cons "thumbprint" (PyVal.prim (Prim.str "ABC123")) PDict.nil))) = some d ∧
      set_properties (blankObj (PyVal.dc (PDict.cons "name" (PyVal.prim (Prim.str "c1"))
          (PDict.cons "thumbprint" (PyVal.prim (Prim.str "ABC123")) PDict.nil)))) d
        = (PyVal.dc (PDict.cons "name" (PyVal.prim (Prim.str "c1"))
            (PDict.cons "thumbprint" (PyVal.prim (Prim.str "ABC123")) PDict.nil)), false) :=
  c2_roundtrip _
    (by simp [wfObj, namesNodup, hasName, wfFields, wfVal])
    (by simp [noneFree, noneFreeFields])

/-- Claim C4: Inflate raises ContractError whenever the target is not a
`DataContract` entity instance or the mapping is not a dict (in either case
the target is returned unmutated); when the target is an entity and the
mapping a dict, the initial validation does not raise and the call proceeds
to the field loop. -/
theorem c4_validation (obj data : PyVal) :
    ((isDC obj = false ∨ isDict data = false) → set_properties obj data = (obj, true))
    ∧ (∀ f d, obj = PyVal.dc f → data = PyVal.dict d →
        set_properties obj data = (PyVal.dc (setFields f d).1, (setFields f d).2)) := by
  constructor
  · intro h
    cases obj <;> cases data <;> simp_all [isDC, isDict, set_properties]
  · intro f d h1 h2
    subst h1
    subst h2
    exact set_properties_dc_dict f d

theorem c4_validation_witness :
    set_properties (PyVal.prim Prim.null) (PyVal.dict PDict.nil)
      = (PyVal.prim Prim.null, true)
    ∧ set_properties (PyVal.dc PDict.nil) (PyVal.prim Prim.null)
      = (PyVal.dc PDict.nil, true)
    ∧ set_properties (PyVal.dc PDict.nil) (PyVal.dict PDict.nil)
      = (PyVal.dc (setFields PDict.nil PDict.nil).1, (setFields PDict.nil PDict.nil).2) :=
  ⟨(c4_validation (PyVal.prim Prim.null) (PyVal.dict PDict.nil)).1 (Or.inl rfl),
   (c4_validation (PyVal.dc PDict.nil) (PyVal.prim Prim.null)).1 (Or.inr rfl),
   (c4_validation (PyVal.dc PDict.nil) (PyVal.dict PDict.nil)).2 PDict.nil PDict.nil rfl rfl⟩

/-- Claim C5: every declared field of the target whose name does not occur
as a key of the mapping has, after Inflate, exactly the value it had before
the call (this holds whether or not the call raises). -/
theorem c5_missing_key_untouched (f d : PDict) (name : String)
    (h : pdictLookup d name = none) :
    pdictLookup (objFields (set_properties (PyVal.dc f) (PyVal.dict d)).1) name
      = pdictLookup f name := by
  rw [set_properties_dc_dict]
  simp only [objFields]
  exact setFields_lookup_off f d name h

theorem c5_missing_key_untouched_witness :
    pdictLookup (objFields (set_properties
        (PyVal.dc (PDict.cons "certificateDataUri" (PyVal.prim Prim.null) PDict.nil))
        (PyVal.dict (PDict.cons "name" (PyVal.prim (Prim.str "cert1")) PDict.nil))).1)
      "certificateDataUri"
    = pdictLookup (PDict.cons "certificateDataUri" (PyVal.prim Prim.null) PDict.nil)
        "certificateDataUri" :=
  c5_missing_key_untouched
    (PDict.cons "certificateDataUri" (PyVal.prim Prim.null) PDict.nil)
    (PDict.cons "name" (PyVal.prim (Prim.str "cert1")) PDict.nil)
    "certificateDataUri" (by simp [pdictLookup])

/-- Claim C6: mapping keys that match no declared field never cause Inflate
to raise (a mapping none of whose keys match any field leaves the target
unchanged with no error), and Inflate never adds any field: after any call
the target has exactly its originally declared field names, in order. -/
theorem c6_unknown_keys (f d : PDict) :
    (noKeyMatches f d = true →
      set_properties (PyVal.dc f) (PyVal.dict d) = (PyVal.dc f, false))
    ∧ fieldNames (objFields (set_properties (PyVal.dc f) (PyVal.dict d)).1)
        = fieldNames f := by
  constructor
  · intro h
    rw [set_properties_dc_dict, setFields_noMatch f d h]
  · rw [set_properties_dc_dict]
    simp only [objFields]
    exact setFields_names f d

theorem c6_unknown_keys_witness :
    set_properties (PyVal.dc (PDict.cons "name" (PyVal.prim Prim.null) PDict.nil))
        (PyVal.dict (PDict.cons "unknownKey" (PyVal.prim (Prim.str "zz")) PDict.nil))
      = (PyVal.dc (PDict.cons "name" (PyVal.prim Prim.null) PDict.nil), false)
    ∧ fieldNames (objFields (set_properties
        (PyVal.dc (PDict.cons "name" (PyVal.prim Prim.null) PDict.nil))
        (PyVal.dict (PDict.cons "unknownKey" (PyVal.prim (Prim.str "zz")) PDict.nil))).1)
      = fieldNames (PDict.cons "name" (PyVal.prim Prim.null) PDict.nil) :=
  ⟨(c6_unknown_keys (PDict.cons "name" (PyVal.prim Prim.null) PDict.nil)
      (PDict.cons "unknownKey" (PyVal.prim (Prim.str "zz")) PDict.nil)).1
      (by simp [noKeyMatches, pdictLookup]),
   (c6_unknown_keys (PDict.cons "name" (PyVal.prim Prim.null) PDict.nil)
      (PDict.cons "unknownKey" (PyVal.prim (Prim.str "zz")) PDict.nil)).2⟩

/-- Claim C9: Inflate is not atomic on failure: there is a target and a
mapping for which the call raises, and at the moment the error propagates a
declared field of the target (here `a`) already holds a new value different
from its value before the call. -/
theorem c9_nonatomic_mutation :
    set_properties
      (PyVal.dc (PDict.cons "a" (PyVal.prim Prim.null)
        (PDict.cons "b" (PyVal.prim Prim.null) PDict.nil)))
      (PyVal.dict (PDict.cons "a" (PyVal.prim (Prim.str "v"))
        (PDict.cons "b" (PyVal.dict PDict.nil) PDict.nil)))
    = (PyVal.dc (PDict.cons "a" (PyVal.prim (Prim.str "v"))
        (PDict.cons "b" (PyVal.prim Prim.null) PDict.nil)), true)
    ∧ pdictLookup (PDict.cons "a" (PyVal.prim (Prim.str "v"))
        (PDict.cons "b" (PyVal.prim Prim.null) PDict.nil)) "a"
      ≠ pdictLookup (PDict.cons "a" (PyVal.prim Prim.null)
        (PDict.cons "b" (PyVal.prim Prim.null) PDict.nil)) "a" := by
  constructor
  · simp [set_properties, setFields, inflateList, pdictLookup, asSeq]
  · simp [pdictLookup]

/-- Claim C3: when a mapping binds a declared field's name to a sequence,
the field must be a typed-list field (else the call errors with the field
untouched); each element is inflated into a fresh instance made by the
list's item factory and appended at the end, in order; an element that is
not itself a dict makes the per-item Inflate error; and when every element
inflates cleanly the new items are exactly the inflated elements, appended
after the existing ones, with the loop continuing error-free. -/
theorem c3_sequence_fields (name : String) (val : PyVal) (rest d : PDict)
    (elems : PList) (t e : PyVal) (items es acc : PList) :
    (pdictLookup d name = some (PyVal.list elems) → isDCList val = false →
      setFields (PDict.cons name val rest) d = (PDict.cons name val rest, true))
    ∧ (isDict e = false → (set_properties t e).2 = true)
    ∧ ((set_properties t e).2 = true → inflateList t acc (PList.cons e es) = (acc, true))
    ∧ ((set_properties t e).2 = false → inflateList t acc (PList.cons e es) =
        inflateList t (psnoc acc (set_properties t e).1) es)
    ∧ (allInflateOk t elems = true → inflateList t acc elems =
        (pappend acc (inflateAll t elems), false))
    ∧ (pdictLookup d name = some (PyVal.list elems) → allInflateOk t elems = true →
        setFields (PDict.cons name (PyVal.dclist t items) rest) d =
          (PDict.cons name (PyVal.dclist t (pappend items (inflateAll t elems)))
            (setFields rest d).1, (setFields rest d).2)) := by
  refine ⟨?_, ?_, ?_, ?_, ?_, ?_⟩
  · intro hl hv
    exact setFields_seq_mismatch name val rest d elems hl hv
  · intro h
    exact set_properties_nonDict t e h
  · intro h
    exact inflateList_elem_err t acc e es h
  · intro h
    rw [inflateList]
    simp [h]
  · intro h
    exact inflateList_ok elems t acc h
  · intro hl hok
    exact setFields_seq_ok name t items rest d elems hl hok

theorem c3_sequence_fields_witness :
    setFields (PDict.cons "certificates" (PyVal.prim Prim.null) PDict.nil)
        (PDict.cons "certificates" (PyVal.list PList.nil) PDict.nil)
      = (PDict.cons "certificates" (PyVal.prim Prim.null) PDict.nil, true)
    ∧ (set_properties (PyVal.dc PDict.nil) (PyVal.prim (Prim.str "x"))).2 = true
    ∧ setFields
        (PDict.cons "certificates"
          (PyVal.dclist (PyVal.dc PDict.nil) PList.nil) PDict.nil)
        (PDict.cons "certificates"
          (PyVal.list (PList.cons (PyVal.dict PDict.nil) PList.nil)) PDict.nil)
      = (PDict.cons "certificates"
          (PyVal.dclist (PyVal.dc PDict.nil)
            (pappend PList.nil (inflateAll (PyVal.dc PDict.nil)
              (PList.cons (PyVal.dict PDict.nil) PList.nil))))
          (setFields PDict.nil (PDict.cons "certificates"
            (PyVal.list (PList.cons (PyVal.dict PDict.nil) PList.nil)) PDict.nil)).1,
         (setFields PDict.nil (PDict.cons "certificates"
            (PyVal.list (PList.cons (PyVal.dict PDict.nil) PList.nil)) PDict.nil)).2) :=
  ⟨(c3_sequence_fields "certificates" (PyVal.prim Prim.null) PDict.nil
      (PDict.cons "certificates" (PyVal.list PList.nil) PDict.nil) PList.nil
      (PyVal.dc PDict.nil) (PyVal.prim (Prim.str "x")) PList.nil PList.nil PList.nil).1
      (by simp [pdictLookup]) rfl,
   (c3_sequence_fields "certificates" (PyVal.prim Prim.null) PDict.nil
      (PDict.cons "certificates" (PyVal.list PList.nil) PDict.nil) PList.nil
      (PyVal.dc PDict.nil) (PyVal.prim (Prim.str "x")) PList.nil PList.nil PList.nil).2.1 rfl,
   (c3_sequence_fields "certificates" (PyVal.dclist (PyVal.dc PDict.nil) PList.nil) PDict.nil
      (PDict.cons "certificates"
        (PyVal.list (PList.cons (PyVal.dict PDict.nil) PList.nil)) PDict.nil)
      (PList.cons (PyVal.dict PDict.nil) PList.nil)
      (PyVal.dc PDict.nil) (PyVal.prim (Prim.str "x")) PList.nil PList.nil PList.nil).2.2.2.2.2
      (by simp [pdictLookup])
      (by simp [allInflateOk, set_properties, setFields])⟩

/-- Claim C7: deflating an entity whose typed-list field holds items
appended in order a, b, c yields, under that field's name, the sequence of
their deflations in exactly that order, and re-inflating a blank instance
from the result reproduces the same items in the same order, with no
error. -/
theorem c7_list_order (F : String) (t a b c : PyVal)
    (hwf : wfObj (PyVal.dc (PDict.cons F
      (PyVal.dclist t (PList.cons a (PList.cons b (PList.cons c PList.nil))))
      PDict.nil)) = true) :
    ∃ da db dcv,
      get_properties a = some da ∧ get_properties b = some db ∧
      get_properties c = some dcv ∧
      get_properties (PyVal.dc (PDict.cons F
          (PyVal.dclist t (PList.cons a (PList.cons b (PList.cons c PList.nil))))
          PDict.nil))
        = some (PyVal.dict (PDict.cons F
            (PyVal.list (PList.cons da (PList.cons db (PList.cons dcv PList.nil))))
            PDict.nil)) ∧
      set_properties
          (blankObj (PyVal.dc (PDict.cons F
            (PyVal.dclist t (PList.cons a (PList.cons b (PList.cons c PList.nil))))
            PDict.nil)))
          (PyVal.dict (PDict.cons F
            (PyVal.list (PList.cons da (PList.cons db (PList.cons dcv PList.nil))))
            PDict.nil))
        = (PyVal.dc (PDict.cons F
            (PyVal.dclist t (PList.cons a (PList.cons b (PList.cons c PList.nil))))
            PDict.nil), false) := by
  rw [wfObj, Bool.and_eq_true] at hwf
  obtain ⟨hnd, hwff⟩ := hwf
  rw [wfFields, Bool.and_eq_true] at hwff
  obtain ⟨hval, _⟩ := hwff
  rw [wfVal] at hval
  obtain ⟨l, hl, hinfl⟩ := roundtrip_items t (PList.cons a (PList.cons b (PList.cons c PList.nil))) hval
  rw [deflateItems] at hl
  cases hga : get_properties a with
  | none => rw [hga] at hl; exact Option.noConfusion hl
  | some da =>
  rw [hga, deflateItems] at hl
  cases hgb : get_properties b with
  | none => rw [hgb] at hl; exact Option.noConfusion hl
  | some db =>
  rw [hgb, deflateItems] at hl
  cases hgc : get_properties c with
  | none => rw [hgc] at hl; exact Option.noConfusion hl
  | some dcv =>
  rw [hgc, deflateItems] at hl
  simp only [Option.some.injEq] at hl
  subst hl
  refine ⟨da, db, dcv, rfl, rfl, rfl, ?_, ?_⟩
  · rw [get_properties, getFields]
    rw [deflateItems, hga, deflateItems, hgb, deflateItems, hgc, deflateItems]
    rw [getFields]
  · have hil : inflateList t PList.nil
        (PList.cons da (PList.cons db (PList.cons dcv PList.nil)))
        = (PList.cons a (PList.cons b (PList.cons c PList.nil)), false) := by
      have h0 := hinfl PList.nil
      rwa [pappend] at h0
    simp only [blankObj, blankFields, blankVal]
    rw [set_properties_dc_dict]
    rw [setFields_seq_res F t PList.nil PDict.nil _
      (PList.cons da (PList.cons db (PList.cons dcv PList.nil)))
      (PList.cons a (PList.cons b (PList.cons c PList.nil)))
      (by simp [pdictLookup]) hil]
    rw [setFields]

theorem c7_list_order_witness :
    ∃ da db dcv,
      get_properties (PyVal.dc (PDict.cons "name" (PyVal.prim (Prim.str "c1")) PDict.nil)) = some da ∧
      get_properties (PyVal.dc (PDict.cons "name" (PyVal.prim (Prim.str "c2")) PDict.nil)) = some db ∧
      get_properties (PyVal.dc (PDict.cons "name" (PyVal.prim (Prim.str "c3")) PDict.nil)) = some dcv ∧
      get_properties (PyVal.dc (PDict.cons "certificates"
          (PyVal.dclist (PyVal.dc (PDict.cons "name" (PyVal.prim Prim.null) PDict.nil))
            (PList.cons (PyVal.dc (PDict.cons "name" (PyVal.prim (Prim.str "c1")) PDict.nil))
              (PList.cons (PyVal.dc (PDict.cons "name" (PyVal.prim (Prim.str "c2")) PDict.nil))
                (PList.cons (PyVal.dc (PDict.cons "name" (PyVal.prim (Prim.str "c3")) PDict.nil))
                  PList.nil))))
          PDict.nil))
        = some (PyVal.dict (PDict.cons "certificates"
            (PyVal.list (PList.cons da (PList.cons db (PList.cons dcv PList.nil))))
            PDict.nil)) ∧
      set_properties
          (blankObj (PyVal.dc (PDict.cons "certificates"
            (PyVal.dclist (PyVal.dc (PDict.cons "name" (PyVal.prim Prim.null) PDict.nil))
              (PList.cons (PyVal.dc (PDict.cons "name" (PyVal.prim (Prim.str "c1")) PDict.nil))
                (PList.cons (PyVal.dc (PDict.cons "name" (PyVal.prim (Prim.str "c2")) PDict.nil))
                  (PList.cons (PyVal.dc (PDict.cons "name" (PyVal.prim (Prim.str "c3")) PDict.nil))
                    PList.nil))))
            PDict.nil)))
          (PyVal.dict (PDict.cons "certificates"
            (PyVal.list (PList.cons da (PList.cons db (PList.cons dcv PList.nil))))
            PDict.nil))
        = (PyVal.dc (PDict.cons "certificates"
            (PyVal.dclist (PyVal.dc (PDict.cons "name" (PyVal.prim Prim.null) PDict.nil))
              (PList.cons (PyVal.dc (PDict.cons "name" (PyVal.prim (Prim.str "c1")) PDict.nil))
                (PList.cons (PyVal.dc (PDict.cons "name" (PyVal.prim (Prim.str "c2")) PDict.nil))
                  (PList.cons (PyVal.dc (PDict.cons "name" (PyVal.prim (Prim.str "c3")) PDict.nil))
                    PList.nil))))
            PDict.nil), false) :=
  c7_list_order "certificates"
    (PyVal.dc (PDict.cons "name" (PyVal.prim Prim.null) PDict.nil))
    (PyVal.dc (PDict.cons "name" (PyVal.prim (Prim.str "c1")) PDict.nil))
    (PyVal.dc (PDict.cons "name" (PyVal.prim (Prim.str "c2")) PDict.nil))
    (PyVal.dc (PDict.cons "name" (PyVal.prim (Prim.str "c3")) PDict.nil))
    (by simp [wfObj, namesNodup, hasName, wfFields, wfVal, wfItems, blankObj, blankFields, blankVal])

/-- Claim C10: Inflate appends to typed lists rather than replacing them: a
typed-list field holding k items, inflated from a sequence of n cleanly
inflating elements, ends with the original k items followed by the n new
ones (k + n total); inflating the same target again from the same mapping
leaves k + 2n items, so Inflate is not idempotent on typed-list fields. -/
theorem c10_append_not_idempotent (F : String) (t : PyVal) (items elems : PList)
    (hok : allInflateOk t elems = true) :
    set_properties (PyVal.dc (PDict.cons F (PyVal.dclist t items) PDict.nil))
        (PyVal.dict (PDict.cons F (PyVal.list elems) PDict.nil))
      = (PyVal.dc (PDict.cons F
          (PyVal.dclist t (pappend items (inflateAll t elems))) PDict.nil), false)
    ∧ set_properties (PyVal.dc (PDict.cons F
          (PyVal.dclist t (pappend items (inflateAll t elems))) PDict.nil))
        (PyVal.dict (PDict.cons F (PyVal.list elems) PDict.nil))
      = (PyVal.dc (PDict.cons F
          (PyVal.dclist t (pappend (pappend items (inflateAll t elems))
            (inflateAll t elems))) PDict.nil), false)
    ∧ plen (pappend items (inflateAll t elems)) = plen items + plen elems
    ∧ plen (pappend (pappend items (inflateAll t elems)) (inflateAll t elems))
        = plen items + 2 * plen elems
    ∧ (0 < plen elems →
        PyVal.dc (PDict.cons F (PyVal.dclist t
          (pappend (pappend items (inflateAll t elems)) (inflateAll t elems))) PDict.nil)
        ≠ PyVal.dc (PDict.cons F
            (PyVal.dclist t (pappend items (inflateAll t elems))) PDict.nil)) := by
  have hone : ∀ items0 : PList,
      set_properties (PyVal.dc (PDict.cons F (PyVal.dclist t items0) PDict.nil))
        (PyVal.dict (PDict.cons F (PyVal.list elems) PDict.nil))
      = (PyVal.dc (PDict.cons F
          (PyVal.dclist t (pappend items0 (inflateAll t elems))) PDict.nil), false) := by
    intro items0
    rw [set_properties_dc_dict]
    rw [setFields_seq_ok F t items0 PDict.nil _ elems (by simp [pdictLookup]) hok]
    rw [setFields]
  refine ⟨hone items, hone (pappend items (inflateAll t elems)), ?_, ?_, ?_⟩
  · rw [plen_pappend, plen_inflateAll]
  · rw [plen_pappend, plen_pappend, plen_inflateAll]
    omega
  · intro hn heq
    simp only [PyVal.dc.injEq, PDict.cons.injEq, PyVal.dclist.injEq] at heq
    have hlen := congrArg plen heq.2.1.2
    simp only [plen_pappend, plen_inflateAll] at hlen
    omega

theorem c10_append_not_idempotent_witness :
    set_properties (PyVal.dc (PDict.cons "certificates"
        (PyVal.dclist (PyVal.dc PDict.nil) PList.nil) PDict.nil))
        (PyVal.dict (PDict.cons "certificates"
          (PyVal.list (PList.cons (PyVal.dict PDict.nil) PList.nil)) PDict.nil))
      = (PyVal.dc (PDict.cons "certificates"
          (PyVal.dclist (PyVal.dc PDict.nil)
            (pappend PList.nil (inflateAll (PyVal.dc PDict.nil)
              (PList.cons (PyVal.dict PDict.nil) PList.nil)))) PDict.nil), false)
    ∧ set_properties (PyVal.dc (PDict.cons "certificates"
          (PyVal.dclist (PyVal.dc PDict.nil)
            (pappend PList.nil (inflateAll (PyVal.dc PDict.nil)
              (PList.cons (PyVal.dict PDict.nil) PList.nil)))) PDict.nil))
        (PyVal.dict (PDict.cons "certificates"
          (PyVal.list (PList.cons (PyVal.dict PDict.nil) PList.nil)) PDict.nil))
      = (PyVal.dc (PDict.cons "certificates"
          (PyVal.dclist (PyVal.dc PDict.nil)
            (pappend (pappend PList.nil (inflateAll (PyVal.dc PDict.nil)
              (PList.cons (PyVal.dict PDict.nil) PList.nil)))
              (inflateAll (PyVal.dc PDict.nil)
                (PList.cons (PyVal.dict PDict.nil) PList.nil)))) PDict.nil), false)
    ∧ plen (pappend PList.nil (inflateAll (PyVal.dc PDict.nil)
        (PList.cons (PyVal.dict PDict.nil) PList.nil)))
      = plen PList.nil + plen (PList.cons (PyVal.dict PDict.nil) PList.nil)
    ∧ plen (pappend (pappend PList.nil (inflateAll (PyVal.dc PDict.nil)
        (PList.cons (PyVal.dict PDict.nil) PList.nil)))
        (inflateAll (PyVal.dc PDict.nil) (PList.cons (PyVal.dict PDict.nil) PList.nil)))
      = plen PList.nil + 2 * plen (PList.cons (PyVal.dict PDict.nil) PList.nil)
    ∧ (0 < plen (PList.cons (PyVal.dict PDict.nil) PList.nil) →
        PyVal.dc (PDict.cons "certificates"
          (PyVal.dclist (PyVal.dc PDict.nil)
            (pappend (pappend PList.nil (inflateAll (PyVal.dc PDict.nil)
              (PList.cons (PyVal.dict PDict.nil) PList.nil)))
              (inflateAll (PyVal.dc PDict.nil)
                (PList.cons (PyVal.dict PDict.nil) PList.nil)))) PDict.nil)
        ≠ PyVal.dc (PDict.cons "certificates"
            (PyVal.dclist (PyVal.dc PDict.nil)
              (pappend PList.nil (inflateAll (PyVal.dc PDict.nil)
                (PList.cons (PyVal.dict PDict.nil) PList.nil)))) PDict.nil)) :=
  c10_append_not_idempotent "certificates" (PyVal.dc PDict.nil) PList.nil
    (PList.cons (PyVal.dict PDict.nil) PList.nil)
    (by simp [allInflateOk, set_properties, setFields])

end AzureProtocol
